import Mathlib

/-!
Verification of the `checker` documentation link-checking tool.

The development shallowly embeds the program's data model and operations:

* the six RST construct extractors (the extractor implementations themselves
  are not part of the provided sources, only their tests; the definitions
  below are modelled from the specification, §4.1),
* the intersphinx object-inventory decoder (likewise modelled from the
  specification, §4.2, with zlib decompression abstracted as a parameter),
* the command pipeline of `cmd/root.go` (constant resolution, the role
  classification switch, changeset scoping, work planning and sequential
  task execution with the URL claim set), and
* the throttled-worker pacing arithmetic of `worker` in `cmd/root.go`
  (wall-clock time and float64 arithmetic modelled by exact integer and
  rational arithmetic).
-/

set_option maxRecDepth 100000

namespace Checker

/-! ## Basic character and list utilities -/

def backtickChar : Char := Char.ofNat 96

def lbraceChar : Char := Char.ofNat 123

def rbraceChar : Char := Char.ofNat 125

def isWs (c : Char) : Bool := c == ' ' || c == '\t' || c == '\n' || c == '\r'

def trimChars (l : List Char) : List Char :=
  ((l.dropWhile isWs).reverse.dropWhile isWs).reverse

/-- `leadsWith p l` holds when `p` is a prefix of `l`. -/
def leadsWith : List Char → List Char → Bool
  | [], _ => true
  | _ :: _, [] => false
  | p :: ps, c :: cs => p == c && leadsWith ps cs

/-- `hasSub l needle` holds when `needle` occurs contiguously inside `l`;
this is the model of Go `strings.Contains l needle`. -/
def hasSub : List Char → List Char → Bool
  | [], needle => leadsWith needle []
  | c :: t, needle => leadsWith needle (c :: t) || hasSub t needle

def splitLinesAux : List Char → List Char → List (List Char)
  | [], acc => [acc.reverse]
  | c :: rest, acc =>
    if c == '\n' then acc.reverse :: splitLinesAux rest []
    else splitLinesAux rest (c :: acc)

def splitLines (l : List Char) : List (List Char) := splitLinesAux l []

def lookupStr : List (String × String) → String → Option String
  | [], _ => none
  | (a, b) :: rest, k => if a == k then some b else lookupStr rest k

/-! ## Data model (from the Go `rst` / `sources` packages) -/

structure RstRole where
  name : String
  roleType : String
  target : String
deriving DecidableEq

structure RefTarget where
  name : String
deriving DecidableEq

structure RstConstant where
  name : String
  target : String
deriving DecidableEq

structure RstDirective where
  name : String
  target : String
deriving DecidableEq

structure SharedInclude where
  path : String
deriving DecidableEq

structure Ref where
  target : String
  type : String
deriving DecidableEq

/-! ## ConstructExtractor

Modelled from the spec: the `rst` package's extractor implementations are
not under the provided sources (only `rstTypes_test.go` is), so the six
extraction operations below follow the specification §4.1 word by word. -/

def isRoleNameChar (c : Char) : Bool :=
  c.isAlphanum || c == '.' || c == ':' || c == '-'

/-- Modelled from the spec: inside the backticks of a role, if an
angle-bracket-delimited target trailer is present, Target is that trailer
(trimmed); otherwise Target is the full trimmed backtick content. -/
def roleTargetOf (content : List Char) : List Char :=
  match content.dropWhile (fun c => c != '<') with
  | [] => trimChars content
  | _ :: afterLt => trimChars (afterLt.takeWhile (fun c => c != '>'))

def mkRole (nm tgt : List Char) : RstRole :=
  RstRole.mk (String.mk nm)
    (if String.mk nm == "ref" then "ref" else "role")
    (String.mk tgt)

/-- Try to match a role whose leading colon has just been consumed:
`l` is the text immediately after that colon. -/
def tryRoleAt (l : List Char) : Option (RstRole × List Char) :=
  let run := l.takeWhile isRoleNameChar
  let rest := l.dropWhile isRoleNameChar
  match rest with
  | [] => none
  | c :: afterTick =>
    if c == backtickChar then
      if run.getLast? == some ':' && !(run.dropLast.isEmpty) then
        let content := afterTick.takeWhile (fun x => x != backtickChar)
        match afterTick.dropWhile (fun x => x != backtickChar) with
        | [] => none
        | _ :: remainder => some (mkRole run.dropLast (roleTargetOf content), remainder)
      else none
    else none

def rolesLoop : Nat → List Char → List RstRole
  | 0, _ => []
  | _ + 1, [] => []
  | fuel + 1, c :: rest =>
    if c == ':' then
      match tryRoleAt rest with
      | some (r, remainder) => r :: rolesLoop fuel remainder
      | none => rolesLoop fuel rest
    else rolesLoop fuel rest

/-- Modelled from the spec: role extraction (`rst.ParseForRoles`). -/
def ParseForRoles (s : String) : List RstRole := rolesLoop s.data.length s.data

/-- Try to match a constant-backed link whose opening backtick has just
been consumed: `l` is the text immediately after that backtick. -/
def tryConstAt (l : List Char) : Option (RstConstant × List Char) :=
  let content := l.takeWhile (fun x => x != backtickChar)
  match l.dropWhile (fun x => x != backtickChar) with
  | [] => none
  | _ :: rest =>
    match rest with
    | u1 :: u2 :: remainder =>
      if u1 == '_' && u2 == '_' then
        match content.dropWhile (fun x => x != '<') with
        | [] => none
        | _ :: afterLt =>
          match afterLt with
          | b1 :: p1 :: rest2 =>
            if b1 == lbraceChar && p1 == '+' then
              let nm := rest2.takeWhile (fun x => x != '+')
              match rest2.dropWhile (fun x => x != '+') with
              | _ :: b2 :: afterName =>
                if b2 == rbraceChar && !nm.isEmpty then
                  let tgt := afterName.takeWhile (fun x => x != '>')
                  some (RstConstant.mk (String.mk nm) (String.mk tgt), remainder)
                else none
              | _ => none
            else none
          | _ => none
      else none
    | _ => none

def constantsLoop : Nat → List Char → List RstConstant
  | 0, _ => []
  | _ + 1, [] => []
  | fuel + 1, c :: rest =>
    if c == backtickChar then
      match tryConstAt rest with
      | some (k, remainder) => k :: constantsLoop fuel remainder
      | none => constantsLoop fuel rest
    else constantsLoop fuel rest

/-- Modelled from the spec: constant-backed link extraction
(`rst.ParseForConstants`). -/
def ParseForConstants (s : String) : List RstConstant :=
  constantsLoop s.data.length s.data

def urlChar (c : Char) : Bool :=
  !(isWs c) && c != ')' && c != ']' && c != '>' && c != backtickChar && c != '"'

def linksLoop : Nat → List Char → List String
  | 0, _ => []
  | _ + 1, [] => []
  | fuel + 1, c :: rest =>
    if leadsWith ("http://".data) (c :: rest) || leadsWith ("https://".data) (c :: rest) then
      String.mk ((c :: rest).takeWhile urlChar) :: linksLoop fuel ((c :: rest).dropWhile urlChar)
    else linksLoop fuel rest

/-- Modelled from the spec: HTTP link extraction (`rst.ParseForHTTPLinks`). -/
def ParseForHTTPLinks (s : String) : List String := linksLoop s.data.length s.data

/-- Modelled from the spec: one line of local-anchor extraction; matches
`.. _<label>:` with optional indentation and list marker, empty label
never matched. -/
def parseAnchorLine (line : List Char) : Option RefTarget :=
  let l1 := line.dropWhile isWs
  let l2 := match l1 with
            | c :: rest => if c == '-' then rest.dropWhile isWs else l1
            | [] => l1
  match l2 with
  | d1 :: d2 :: rest =>
    if d1 == '.' && d2 == '.' then
      match rest.dropWhile isWs with
      | u :: rest2 =>
        if u == '_' then
          let afterU := rest2.dropWhile isWs
          let label := afterU.takeWhile (fun x => x != ':')
          match afterU.dropWhile (fun x => x != ':') with
          | _ :: _ => if label.isEmpty then none else some (RefTarget.mk (String.mk label))
          | [] => none
        else none
      | [] => none
    else none
  | _ => none

/-- Modelled from the spec: local anchor extraction (`rst.ParseForLocalRefs`). -/
def ParseForLocalRefs (s : String) : List RefTarget :=
  (splitLines s.data).filterMap parseAnchorLine

def isDirNameChar (c : Char) : Bool := c.isAlphanum || c == '-'

/-- Modelled from the spec: one line of directive extraction; matches
`.. <name>:: <argument>` with a non-empty trimmed argument required. -/
def parseDirectiveLine (line : List Char) : Option RstDirective :=
  match line.dropWhile isWs with
  | d1 :: d2 :: rest =>
    if d1 == '.' && d2 == '.' then
      match rest with
      | s1 :: rest1 =>
        if isWs s1 then
          let body := rest1.dropWhile isWs
          let nm := body.takeWhile isDirNameChar
          match body.dropWhile isDirNameChar with
          | c1 :: c2 :: restArg =>
            if c1 == ':' && c2 == ':' then
              let tgt := trimChars restArg
              if nm.isEmpty || tgt.isEmpty then none
              else some (RstDirective.mk (String.mk nm) (String.mk tgt))
            else none
          | _ => none
        else none
      | [] => none
    else none
  | _ => none

/-- Modelled from the spec: directive extraction (`rst.ParseForDirectives`). -/
def ParseForDirectives (s : String) : List RstDirective :=
  (splitLines s.data).filterMap parseDirectiveLine

/-- Modelled from the spec: shared-include extraction
(`rst.ParseForSharedIncludes`), directives filtered to `sharedinclude`. -/
def ParseForSharedIncludes (s : String) : List SharedInclude :=
  (ParseForDirectives s).filterMap fun d =>
    if d.name == "sharedinclude" then some (SharedInclude.mk d.target) else none

/-! ## InventoryDecoder

Modelled from the spec: the `intersphinx` package implementation is not
under the provided sources (only `intersphinx_test.go` is).  The decoder
follows specification §4.2; zlib decompression is abstracted as the
`decompress` parameter (`none` models a decompression failure). -/

/-- Take one newline-terminated line; the second component is `none` when
no newline terminates the line. -/
def takeLine : List Char → List Char × Option (List Char)
  | [] => ([], none)
  | c :: rest =>
    if c == '\n' then ([], some rest)
    else
      let p := takeLine rest
      (c :: p.fst, p.snd)

def invHeader1 : List Char := "# Sphinx inventory version".data

def invHeader2 : List Char := "# Project".data

def invHeader3 : List Char := "# Version".data

def invHeader4 : List Char := "# The remainder of this file is compressed using zlib".data

def nextToken (l : List Char) : List Char × List Char :=
  let l1 := l.dropWhile isWs
  (l1.takeWhile (fun c => !(isWs c)), l1.dropWhile (fun c => !(isWs c)))

/-- Modelled from the spec: one inventory record
`name domain:role priority uri dispname`; records with fewer than the
required fields are skipped. -/
def parseInvRecord (domain : String) (line : List Char) : Option (String × Ref) :=
  let p1 := nextToken line
  let p2 := nextToken p1.snd
  let p3 := nextToken p2.snd
  let p4 := nextToken p3.snd
  let disp := trimChars p4.snd
  if p1.fst.isEmpty || p2.fst.isEmpty || p3.fst.isEmpty || p4.fst.isEmpty || disp.isEmpty then
    none
  else
    some (String.mk p1.fst, Ref.mk (domain ++ String.mk p4.fst) "intersphinx")

/-- Read the four-line header; `some body` is the remaining compressed
payload when all four fixed prefixes match, `none` on any deviation. -/
def invAfterHeader (l : List Char) : Option (List Char) :=
  match takeLine l with
  | (l1, some r1) =>
    match takeLine r1 with
    | (l2, some r2) =>
      match takeLine r2 with
      | (l3, some r3) =>
        match takeLine r3 with
        | (l4, some body) =>
          if leadsWith invHeader1 l1 && leadsWith invHeader2 l2 &&
             leadsWith invHeader3 l3 && leadsWith invHeader4 l4 then
            some body
          else none
        | (_, none) => none
      | (_, none) => none
    | (_, none) => none
  | (_, none) => none

/-- Modelled from the spec: the inventory decoder
(`intersphinx.Intersphinx`), with zlib decompression abstracted. -/
def Intersphinx (decompress : String → Option String) (file : String) (domain : String) :
    List (String × Ref) :=
  match invAfterHeader file.data with
  | none => []
  | some body =>
    match decompress (String.mk body) with
    | none => []
    | some text => (splitLines text.data).filterMap (parseInvRecord domain)

/-! ## The command pipeline of `cmd/root.go`

The definitions below embed the `Run` function of `rootCmd`: the constant
resolution loop (lines 157-165), the role classification switch
(lines 175-245), the HTTP-link loop (lines 247-267), and the sequential
draining of the planned work stack.  The planner reads the `checkedUrls`
claim set while planning (`sync.Map.Load` inside `workFunc`); every store
into the claim set happens only when a planned task executes, and in the
program every task is planned before any task executes. -/

/-- Go `strings.TrimPrefix s "/"`. -/
def trimLeadingSlash (s : String) : String :=
  match s.data with
  | c :: rest => if c == '/' then String.mk rest else s
  | [] => s

/-- The `contains` helper of `cmd/root.go` (lines 340-347): true when some
element of `s` contains `e` as a substring (Go `strings.Contains`). -/
def contains (s : List String) (e : String) : Bool :=
  s.any fun a => hasSub a.data e.data

/-- Modelled from the spec: `rst.RstConstant.IsHTTPLink` — the target is
an absolute HTTP(S) URL. -/
def RstConstant.IsHTTPLink (c : RstConstant) : Bool :=
  leadsWith ("http://".data) c.target.data || leadsWith ("https://".data) c.target.data

/-- Diagnostics emitted on the `diags` channel, one constructor per
`fmt.Sprintf` format in `cmd/root.go`. -/
inductive Diag where
  | notDefinedInConfig (con : RstConstant)
  | notValidRef (filename : String) (role : RstRole)
  | notValidFile (filename : String) (role : RstRole)
  | notValidRole (filename : String) (role : RstRole)
  | badInterpretedUrl (filename url : String) (role : RstRole)
  | badHTTPLink (filename link : String)
deriving DecidableEq

/-- A planned work-stack entry: the closure returned by a `workFunc`. -/
inductive Task where
  | noop
  | probeRole (url filename : String) (role : RstRole)
  | probeLink (link filename : String)
deriving DecidableEq

/-- Go `fmt.Sprintf template target` for a single `%s` verb. -/
def substPercentS : List Char → List Char → List Char
  | [], _ => []
  | [c], _ => [c]
  | c1 :: c2 :: rest, t =>
    if c1 == '%' && c2 == 's' then t ++ rest
    else c1 :: substPercentS (c2 :: rest) t

def sprintfRole (template target : String) : String :=
  String.mk (substPercentS template.data target.data)

/-- The constants loop of `rootCmd.Run` (lines 157-165): for each
extracted constant, report names missing from the configured constants
table, and add `testCon.Target` to the HTTP-link map when it forms an
HTTP link.  `testCon.Target` is computed exactly as in the source:
`projectSnooty.Constants[filename] + con.Name`. -/
def processConstants (table : List (String × String)) :
    List (RstConstant × String) → List Diag × List (String × String)
  | [] => ([], [])
  | (con, filename) :: rest =>
    let tail := processConstants table rest
    let d : List Diag :=
      if (lookupStr table con.name).isNone then [Diag.notDefinedInConfig con] else []
    let testCon : RstConstant :=
      RstConstant.mk con.name (((lookupStr table filename).getD "") ++ con.name)
    let added : List (String × String) :=
      if testCon.IsHTTPLink then [(testCon.target, filename)] else []
    (d ++ tail.fst, added ++ tail.snd)

/-- Go map assignment `m[k] = v` on an association-list model. -/
def mapInsert (m : List (String × String)) (k v : String) : List (String × String) :=
  if (lookupStr m k).isSome then
    m.map fun p => if p.fst == k then (k, v) else p
  else m ++ [(k, v)]

/-- The role classification switch of `rootCmd.Run` (lines 175-245) for a
single discovered role, returning the diagnostics it emits and the tasks
it appends to the work stack.  `checked` is the content of the
`checkedUrls` claim set at planning time. -/
def processRole (refs docs : Bool) (changes files sphinxKeys : List String)
    (localRefOk : RstRole → Bool) (specRoles : List (String × String))
    (rawRoles rstObjects : List String) (checked : List String)
    (role : RstRole) (filename : String) : List Diag × List Task :=
  if !(contains changes (trimLeadingSlash filename)) then ([], [])
  else if role.name == "guilabel" then ([], [])
  else if role.name == "ref" || role.name == "py:meth" || role.name == "py:class" then
    if refs then
      if sphinxKeys.any (fun k => k == role.target) then ([], [])
      else if localRefOk role then ([], [])
      else ([Diag.notValidRef filename role], [])
    else ([], [])
  else if role.name == "doc" then
    if docs then
      if contains files filename then ([], [])
      else ([Diag.notValidFile filename role], [])
    else ([], [])
  else
    match lookupStr specRoles role.name with
    | some template =>
      let url := sprintfRole template role.target
      if checked.any (fun u => u == url) then ([], [Task.noop])
      else ([], [Task.probeRole url filename role])
    | none =>
      if rawRoles.any (fun r => r == role.name) || rstObjects.any (fun r => r == role.name) then
        ([], [])
      else ([Diag.notValidRole filename role], [])

/-- The HTTP-link loop of `rootCmd.Run` (lines 247-267) for a single
link map entry. -/
def processLink (changes checked : List String) (link filename : String) : List Task :=
  if !(contains changes (trimLeadingSlash filename)) then []
  else if checked.any (fun u => u == link) then [Task.noop]
  else [Task.probeLink link filename]

/-- Sequential execution of the planned tasks: a probe task stores its URL
into the claim set and then performs the reachability probe
unconditionally (the closure in `workFunc` re-checks nothing).  Returns
the final claim set, the probed URLs in order, and the diagnostics. -/
def runTasks (reachable : String → Bool) :
    List String → List Task → List String × List String × List Diag
  | checked, [] => (checked, [], [])
  | checked, Task.noop :: ts => runTasks reachable checked ts
  | checked, Task.probeRole url filename role :: ts =>
    let tail := runTasks reachable (url :: checked) ts
    (tail.fst, url :: tail.snd.fst,
      (if reachable url then [] else [Diag.badInterpretedUrl filename url role]) ++ tail.snd.snd)
  | checked, Task.probeLink link filename :: ts =>
    let tail := runTasks reachable (link :: checked) ts
    (tail.fst, link :: tail.snd.fst,
      (if reachable link then [] else [Diag.badHTTPLink filename link]) ++ tail.snd.snd)

/-- The inputs of one run: flags, configuration, gathered indices, and the
injected capabilities (local-ref lookup and the reachability probe). -/
structure RunConfig where
  refs : Bool
  docs : Bool
  constantsTable : List (String × String)
  allConstants : List (RstConstant × String)
  allRoleTargets : List (RstRole × String)
  allHTTPLinks : List (String × String)
  changes : List String
  files : List String
  sphinxKeys : List String
  localRefOk : RstRole → Bool
  specRoles : List (String × String)
  rawRoles : List String
  rstObjects : List String
  reachable : String → Bool

/-- The per-role outputs of the planning loop over `allRoleTargets`.  The
`checkedUrls` claim set is passed as `[]`: `workFunc` reads it while
planning, and in the program every store into it happens only once a
planned task executes, after planning is complete. -/
def planRoleOut (cfg : RunConfig) : List (List Diag × List Task) :=
  cfg.allRoleTargets.map fun p =>
    processRole cfg.refs cfg.docs cfg.changes cfg.files cfg.sphinxKeys cfg.localRefOk
      cfg.specRoles cfg.rawRoles cfg.rstObjects [] p.fst p.snd

/-- The HTTP-link map after the constants loop has inserted the resolved
constants that form HTTP links. -/
def planLinksAll (cfg : RunConfig) : List (String × String) :=
  (processConstants cfg.constantsTable cfg.allConstants).snd.foldl
    (fun m p => mapInsert m p.fst p.snd) cfg.allHTTPLinks

/-- The full planned work stack: role tasks followed by link tasks. -/
def planTasks (cfg : RunConfig) : List Task :=
  ((planRoleOut cfg).map Prod.snd).flatten
    ++ ((planLinksAll cfg).map fun p => processLink cfg.changes [] p.fst p.snd).flatten

/-- One run of `rootCmd.Run` from the constants loop onwards: plan every
task (with the claim set empty, as it is until the first task executes),
then execute the work stack.  Returns the diagnostics and the list of
URLs actually probed. -/
def checkerRun (cfg : RunConfig) : List Diag × List String :=
  (((processConstants cfg.constantsTable cfg.allConstants).fst
      ++ ((planRoleOut cfg).map Prod.fst).flatten)
      ++ (runTasks cfg.reachable [] (planTasks cfg)).snd.snd,
   (runTasks cfg.reachable [] (planTasks cfg)).snd.fst)

/-! ## ThrottledWorkerPool pacing (`worker`, `cmd/root.go` lines 349-362)

`time.Duration` values are modelled as integer nanosecond counts.  The
interval computation
`time.Duration(math.Ceil(1e9 / (float64(throttle) / float64(workers))))`
is float64 arithmetic, so it is modelled bit-faithfully: a nonnegative
binary64 value is a mantissa-exponent pair `(m, e)` of value `m * 2^e`,
conversions and divisions round to nearest (ties to even) exactly as
IEEE-754 prescribes for results in the normal finite range — which
covers every value arising in this computation for positive `throttle`
and `workers` (division by a zero float, infinities and subnormals are
outside the modelled range). -/

def log2Aux : ℕ → ℕ → ℕ
  | 0, _ => 0
  | fuel + 1, n => if n ≤ 1 then 0 else log2Aux fuel (n / 2) + 1

/-- Floor of the base-2 logarithm of a positive natural. -/
def natLog2 (n : ℕ) : ℕ := log2Aux n n

/-- Does `2^k ≤ a / b` hold (for `a, b ≥ 1`)? -/
def pow2LeFrac (a b : ℕ) (k : ℤ) : Bool :=
  match k with
  | Int.ofNat n => decide (b * 2 ^ n ≤ a)
  | Int.negSucc n => decide (b ≤ a * 2 ^ (n + 1))

/-- Floor of the base-2 logarithm of the positive rational `a / b`. -/
def floorLog2 (a b : ℕ) : ℤ :=
  let k0 : ℤ := (natLog2 a : ℤ) - (natLog2 b : ℤ)
  if pow2LeFrac a b k0 then k0 else k0 - 1

/-- Round the positive rational `a / b` (with `a, b ≥ 1`) to the nearest
IEEE-754 binary64 value, ties to even: the result is the mantissa-exponent
pair `(m, e)` with `2^52 ≤ m ≤ 2^53` whose value is `m * 2^e`. -/
def fracRound (a b : ℕ) : ℕ × ℤ :=
  let e : ℤ := floorLog2 a b - 52
  let divA : ℕ := if 0 ≤ e then a else a * 2 ^ (-e).toNat
  let divB : ℕ := if 0 ≤ e then b * 2 ^ e.toNat else b
  let m0 := divA / divB
  let r := divA % divB
  let m := if 2 * r < divB then m0
           else if divB < 2 * r then m0 + 1
           else if m0 % 2 = 0 then m0 else m0 + 1
  (m, e)

/-- Go `float64(n)` for a natural `n` (rounded like every conversion;
exact below `2^53`). -/
def floatOfNat (n : ℕ) : ℕ × ℤ := if n = 0 then (0, 0) else fracRound n 1

/-- IEEE-754 binary64 division of two nonnegative values, the divisor
nonzero (a zero divisor would give an infinity, outside the modelled
range). -/
def floatDivF (x y : ℕ × ℤ) : ℕ × ℤ :=
  if x.fst = 0 then (0, 0)
  else
    let s := x.snd - y.snd
    if 0 ≤ s then fracRound (x.fst * 2 ^ s.toNat) y.fst
    else fracRound x.fst (y.fst * 2 ^ (-s).toNat)

/-- Go `math.Ceil` on a nonnegative binary64 value, composed with the
`time.Duration` (int64) conversion — exact, since the ceiling of such a
value is an integer and the conversion truncates. -/
def ceilF (x : ℕ × ℤ) : ℤ :=
  match x.snd with
  | Int.ofNat n => ((x.fst * 2 ^ n : ℕ) : ℤ)
  | Int.negSucc n => (((x.fst + 2 ^ (n + 1) - 1) / 2 ^ (n + 1) : ℕ) : ℤ)

/-- The exact rational value of the binary64 quantity `(m, e)`. -/
def floatVal (x : ℕ × ℤ) : ℚ :=
  match x.snd with
  | Int.ofNat n => ((x.fst * 2 ^ n : ℕ) : ℚ)
  | Int.negSucc n => (x.fst : ℚ) / ((2 ^ (n + 1) : ℕ) : ℚ)

/-- `minimumTimeBetweenEachExecution`:
`time.Duration(math.Ceil(1e9 / (float64(throttle) / float64(workers))))`,
with the float64 arithmetic modelled bit-faithfully by `fracRound`. -/
def minIntervalNs (throttle workers : ℕ) : ℤ :=
  ceilF (floatDivF (floatOfNat 1000000000) (floatDivF (floatOfNat throttle) (floatOfNat workers)))

/-- A worker's state: the current clock and `lastExecutionTime`. -/
structure WorkerState where
  clock : ℤ
  lastExecutionTime : ℤ
deriving DecidableEq

/-- One iteration of the worker loop: compute
`timeUntilNextExecution = -(time.Since(last) - minInterval)`, sleep that
long if positive, record the dispatch time, run the job (which advances
the clock by `jobTime`).  Returns the dispatch time and the new state. -/
def workerStep (minI : ℤ) (s : WorkerState) (jobTime : ℤ) : ℤ × WorkerState :=
  let timeUntilNextExecution := minI - (s.clock - s.lastExecutionTime)
  let dispatch := if 0 < timeUntilNextExecution then s.clock + timeUntilNextExecution else s.clock
  (dispatch, WorkerState.mk (dispatch + jobTime) dispatch)

/-! ## Diagnostic-counting helper -/

def countD (d : Diag) : List Diag → Nat
  | [] => 0
  | x :: rest => (if x = d then 1 else 0) + countD d rest

/-! ## Concrete inputs used by the claim theorems and witnesses -/

/-- A toy invertible codec standing in for zlib in witnesses: a body is
"well-compressed" when it starts with the marker `Z`; raw record text and
the empty string do not, so inflating them fails, as zlib inflation fails
on them. -/
def toyInflate (s : String) : Option String :=
  match s.data with
  | c :: rest => if c == 'Z' then some (String.mk rest) else none
  | [] => none

/-- The valid four-line inventory header from `TestSomeContent`. -/
def invTestHeader : String :=
  "# Sphinx inventory version 2\n# Project: golang\n# Version:\n# The remainder of this file is compressed using zlib.\n"

/-- The four inventory records from `TestSomeContent`. -/
def invTestRecords : String :=
  "whats-new std:doc -1 whats-new/ Whats New\ncompatibility std:doc -1 compatibility/ Compatibility\nfundamentals std:doc -1 fundamentals/ Fundamentals\nusage-examples std:doc -1 usage-examples/ Usage Examples"

/-- The base URL prefix from `TestSomeContent`. -/
def invTestBase : String := "https://docs.mongodb.com/drivers/go/current/"

/-- The four expected decoded entries. -/
def invExpected : List (String × Ref) :=
  [("whats-new", Ref.mk (invTestBase ++ "whats-new/") "intersphinx"),
   ("compatibility", Ref.mk (invTestBase ++ "compatibility/") "intersphinx"),
   ("fundamentals", Ref.mk (invTestBase ++ "fundamentals/") "intersphinx"),
   ("usage-examples", Ref.mk (invTestBase ++ "usage-examples/") "intersphinx")]

/-- A truncated header: only three lines (`TestInvalidHeader`). -/
def invTruncatedHeader : String :=
  "# Sphinx inventory version 2\n# Project: golang\n# Version:\n"

/-- A malformed header: four lines but a wrong first prefix. -/
def invMalformedHeader : String :=
  "# Bogus inventory version 2\n# Project: golang\n# Version:\n# The remainder of this file is compressed using zlib.\n"

/-- The four header lines of `invTestHeader`, for the header lemma. -/
def invLine1 : List Char := "# Sphinx inventory version 2".data

def invLine2 : List Char := "# Project: golang".data

def invLine3 : List Char := "# Version:".data

def invLine4 : List Char := "# The remainder of this file is compressed using zlib.".data

/-- A run in which a templated role and an extracted HTTP link compute
the same final URL, both planned before any task executes. -/
def cfgDup : RunConfig := RunConfig.mk
  false false [] []
  [(RstRole.mk "manual" "role" "x", "a.txt")]
  [("https://example.com/x", "a.txt")]
  ["a.txt"] ["a.txt"] []
  (fun _ => false)
  [("manual", "https://example.com/%s")]
  [] []
  (fun _ => true)

/-- A run with docs-checking enabled and a `doc` role whose target names
no document of the corpus. -/
def cfgDoc : RunConfig := RunConfig.mk
  false true [] []
  [(RstRole.mk "doc" "role" "/nonexistent-doc", "index.txt")]
  [] ["index.txt"] ["index.txt"] []
  (fun _ => false) [] [] [] (fun _ => true)

/-- A run whose only extracted constant is absent from the (empty)
constants table. -/
def cfgUndefCon : RunConfig := RunConfig.mk
  true true [] [(RstConstant.mk "api" "/x", "f.txt")]
  [] [] [] [] []
  (fun _ => false) [] [] [] (fun _ => true)

/-! ## Helper lemmas -/

theorem strMk_data (s : String) : String.mk s.data = s := by
  cases s
  rfl

theorem leadsWith_iff : ∀ (p l : List Char), leadsWith p l = true ↔ ∃ post, l = p ++ post := by
  intro p
  induction p with
  | nil =>
    intro l
    simp [leadsWith]
  | cons c cs ih =>
    intro l
    cases l with
    | nil => simp [leadsWith]
    | cons a as =>
      simp only [leadsWith, Bool.and_eq_true, beq_iff_eq, List.cons_append, List.cons.injEq]
      rw [ih as]
      constructor
      · rintro ⟨hc, post, hp⟩
        exact ⟨post, hc.symm, hp⟩
      · rintro ⟨post, hac, hp⟩
        exact ⟨hac.symm, post, hp⟩

theorem hasSub_iff : ∀ (l needle : List Char),
    hasSub l needle = true ↔ ∃ pre post, l = pre ++ needle ++ post := by
  intro l
  induction l with
  | nil =>
    intro needle
    simp only [hasSub, leadsWith_iff]
    constructor
    · rintro ⟨post, hp⟩
      exact ⟨[], post, by simpa using hp⟩
    · rintro ⟨pre, post, hp⟩
      have h0 : pre = [] ∧ needle = [] ∧ post = [] := by
        simpa using hp.symm
      exact ⟨[], by simp [h0.2.1]⟩
  | cons c t ih =>
    intro needle
    simp only [hasSub, Bool.or_eq_true]
    rw [leadsWith_iff, ih]
    constructor
    · rintro (⟨post, hp⟩ | ⟨pre, post, hp⟩)
      · exact ⟨[], post, by simpa using hp⟩
      · exact ⟨c :: pre, post, by simp [hp]⟩
    · rintro ⟨pre, post, hp⟩
      cases pre with
      | nil =>
        exact Or.inl ⟨post, by simpa using hp⟩
      | cons x xs =>
        right
        have h0 : c = x ∧ t = xs ++ (needle ++ post) := by
          simpa [List.append_assoc] using hp
        exact ⟨xs, post, by simp [List.append_assoc, h0.2]⟩

theorem countD_append (d : Diag) (a b : List Diag) :
    countD d (a ++ b) = countD d a + countD d b := by
  induction a with
  | nil => simp [countD]
  | cons x xs ih => simp [countD, ih, Nat.add_assoc]

theorem countD_eq_zero (d : Diag) (l : List Diag) (h : ∀ x ∈ l, x ≠ d) : countD d l = 0 := by
  induction l with
  | nil => rfl
  | cons x xs ih =>
    have hx : ¬ (x = d) := h x (by simp)
    simp only [countD, if_neg hx, Nat.zero_add]
    exact ih fun y hy => h y (by simp [hy])

theorem takeLine_append_newline (l : List Char) (hl : l.all (fun c => c != '\n') = true)
    (rest : List Char) : takeLine (l ++ '\n' :: rest) = (l, some rest) := by
  induction l with
  | nil => simp [takeLine]
  | cons c cs ih =>
    simp only [List.all_cons, Bool.and_eq_true] at hl
    have hc : (c == '\n') = false := by
      simpa using hl.1
    simp [takeLine, hc, ih hl.2]

theorem mkRole_roleType (nm tgt : List Char) :
    (mkRole nm tgt).roleType = if (mkRole nm tgt).name = "ref" then "ref" else "role" := by
  simp only [mkRole]
  by_cases h : String.mk nm = "ref" <;> simp [h]

theorem tryRoleAt_shape (l : List Char) (r : RstRole) (rem : List Char)
    (h : tryRoleAt l = some (r, rem)) :
    r.roleType = if r.name = "ref" then "ref" else "role" := by
  unfold tryRoleAt at h
  dsimp only at h
  split at h
  · exact absurd h (by simp)
  · split at h
    · split at h
      · split at h
        · exact absurd h (by simp)
        · obtain ⟨h1, h2⟩ := Prod.mk.inj (Option.some.inj h)
          rw [← h1]
          exact mkRole_roleType _ _
      · exact absurd h (by simp)
    · exact absurd h (by simp)

theorem rolesLoop_shape : ∀ (fuel : Nat) (l : List Char) (r : RstRole),
    r ∈ rolesLoop fuel l → r.roleType = if r.name = "ref" then "ref" else "role" := by
  intro fuel
  induction fuel with
  | zero =>
    intro l r h
    simp [rolesLoop] at h
  | succ n ih =>
    intro l r h
    cases l with
    | nil => simp [rolesLoop] at h
    | cons c rest =>
      rw [rolesLoop] at h
      by_cases hc : (c == ':') = true
      · rw [if_pos hc] at h
        cases htr : tryRoleAt rest with
        | none =>
          rw [htr] at h
          exact ih rest r h
        | some pr =>
          rw [htr] at h
          rcases pr with ⟨r0, rem⟩
          rcases List.mem_cons.mp h with h1 | h2
          · rw [h1]
            exact tryRoleAt_shape rest r0 rem htr
          · exact ih rem r h2
      · rw [if_neg hc] at h
        exact ih rest r h

theorem intersphinx_skip (d : String → Option String) (file domain : String)
    (h : invAfterHeader file.data = none) : Intersphinx d file domain = [] := by
  unfold Intersphinx
  rw [h]

theorem intersphinx_body (d : String → Option String) (file domain : String)
    (body : List Char) (h : invAfterHeader file.data = some body) :
    Intersphinx d file domain
      = match d (String.mk body) with
        | none => []
        | some text => (splitLines text.data).filterMap (parseInvRecord domain) := by
  unfold Intersphinx
  rw [h]

theorem invAfterHeader_append (body : List Char) :
    invAfterHeader (invTestHeader.data ++ body) = some body := by
  have hdec : invTestHeader.data
      = invLine1 ++ '\n' :: (invLine2 ++ '\n' :: (invLine3 ++ '\n' :: (invLine4 ++ '\n' :: []))) := by
    decide
  rw [hdec]
  simp only [List.append_assoc, List.cons_append, List.nil_append]
  have h1 := takeLine_append_newline invLine1 (by decide)
    (invLine2 ++ '\n' :: (invLine3 ++ '\n' :: (invLine4 ++ '\n' :: body)))
  have h2 := takeLine_append_newline invLine2 (by decide)
    (invLine3 ++ '\n' :: (invLine4 ++ '\n' :: body))
  have h3 := takeLine_append_newline invLine3 (by decide) (invLine4 ++ '\n' :: body)
  have h4 := takeLine_append_newline invLine4 (by decide) body
  have hok : (leadsWith invHeader1 invLine1 && leadsWith invHeader2 invLine2 &&
      leadsWith invHeader3 invLine3 && leadsWith invHeader4 invLine4) = true := by
    decide
  simp only [invAfterHeader, h1, h2, h3, h4, hok, if_true]

theorem processConstants_count_zero (table : List (String × String)) :
    ∀ (entries : List (RstConstant × String)) (con : RstConstant),
      con ∉ entries.map Prod.fst →
      countD (Diag.notDefinedInConfig con) (processConstants table entries).fst = 0 := by
  intro entries
  induction entries with
  | nil =>
    intro con _
    rfl
  | cons e rest ih =>
    intro con hc
    rcases e with ⟨c0, f0⟩
    simp only [List.map_cons, List.mem_cons, not_or] at hc
    show countD _
      ((if (lookupStr table c0.name).isNone then [Diag.notDefinedInConfig c0] else [])
        ++ (processConstants table rest).fst) = 0
    rw [countD_append, ih con hc.2]
    by_cases hl : (lookupStr table c0.name).isNone = true
    · have hne : ¬ (Diag.notDefinedInConfig c0 = Diag.notDefinedInConfig con) := by
        simp only [Diag.notDefinedInConfig.injEq]
        intro he
        exact hc.1 he.symm
      simp [hl, countD, hne]
    · simp [hl, countD]

theorem processConstants_count_one (table : List (String × String)) :
    ∀ (entries : List (RstConstant × String)) (con : RstConstant) (fn : String),
      (entries.map Prod.fst).Nodup → (con, fn) ∈ entries →
      (lookupStr table con.name).isNone = true →
      countD (Diag.notDefinedInConfig con) (processConstants table entries).fst = 1 := by
  intro entries
  induction entries with
  | nil =>
    intro con fn _ hmem _
    cases hmem
  | cons e rest ih =>
    intro con fn hnd hmem habs
    rcases e with ⟨c0, f0⟩
    rw [List.map_cons, List.nodup_cons] at hnd
    show countD _
      ((if (lookupStr table c0.name).isNone then [Diag.notDefinedInConfig c0] else [])
        ++ (processConstants table rest).fst) = 1
    rw [countD_append]
    rcases List.mem_cons.mp hmem with h1 | h2
    · obtain ⟨hcc, hff⟩ := Prod.mk.inj h1
      rw [← hcc] at hnd ⊢
      rw [if_pos habs, processConstants_count_zero table rest con hnd.1]
      simp [countD]
    · have hconmem : con ∈ rest.map Prod.fst := List.mem_map.mpr ⟨(con, fn), h2, rfl⟩
      have hne : ¬ (c0 = con) := fun he => hnd.1 (he ▸ hconmem)
      rw [ih con fn hnd.2 h2 habs]
      by_cases hl : (lookupStr table c0.name).isNone = true
      · have hne2 : ¬ (Diag.notDefinedInConfig c0 = Diag.notDefinedInConfig con) := by
          simp only [Diag.notDefinedInConfig.injEq]
          exact hne
        simp [hl, countD, hne2]
      · simp [hl, countD]

theorem processRole_fst_shape (refs docs : Bool) (changes files sphinxKeys : List String)
    (localRefOk : RstRole → Bool) (specRoles : List (String × String))
    (rawRoles rstObjects : List String) (checked : List String)
    (role : RstRole) (filename : String) (con : RstConstant) :
    ∀ x ∈ (processRole refs docs changes files sphinxKeys localRefOk specRoles rawRoles
        rstObjects checked role filename).fst, ¬ (x = Diag.notDefinedInConfig con) := by
  intro x hx
  unfold processRole at hx
  dsimp only at hx
  repeat' split at hx
  all_goals simp_all

theorem runTasks_diag_shape (reachable : String → Bool) :
    ∀ (ts : List Task) (checked : List String) (con : RstConstant),
      ∀ x ∈ (runTasks reachable checked ts).snd.snd, ¬ (x = Diag.notDefinedInConfig con) := by
  intro ts
  induction ts with
  | nil =>
    intro checked con x hx
    simp [runTasks] at hx
  | cons t rest ih =>
    intro checked con x hx
    cases t with
    | noop =>
      rw [runTasks] at hx
      exact ih checked con x hx
    | probeRole url fn r =>
      rw [runTasks] at hx
      dsimp only at hx
      rcases List.mem_append.mp hx with h1 | h2
      · by_cases hr : reachable url = true
        · rw [if_pos hr] at h1
          cases h1
        · rw [if_neg hr] at h1
          rw [List.mem_singleton.mp h1]
          simp
      · exact ih _ con x h2
    | probeLink link fn =>
      rw [runTasks] at hx
      dsimp only at hx
      rcases List.mem_append.mp hx with h1 | h2
      · by_cases hr : reachable link = true
        · rw [if_pos hr] at h1
          cases h1
        · rw [if_neg hr] at h1
          rw [List.mem_singleton.mp h1]
          simp
      · exact ih _ con x h2

theorem minIntervalNs_default : minIntervalNs 10 10 = 1000000000 := by
  decide

/-! Spot checks of the float64 model against the values the program
computes (verified against IEEE binary64 arithmetic). -/

example : minIntervalNs 3 1 = 333333334 := by decide

example : minIntervalNs 7 3 = 428571429 := by decide

example : minIntervalNs 100 7 = 70000000 := by decide

example : minIntervalNs 1000 10 = 10000000 := by decide

example : minIntervalNs 2 49 = 24500000001 := by decide

/-- `ceilF` computes the canonical ceiling of the value of a binary64
quantity (and hence models `math.Ceil` composed with the exact
`time.Duration` conversion). -/
theorem ceilF_eq_ceil (x : ℕ × ℤ) : ceilF x = Int.ceil (floatVal x) := by
  rcases x with ⟨m, e⟩
  cases e with
  | ofNat n =>
    show ((m * 2 ^ n : ℕ) : ℤ) = Int.ceil (((m * 2 ^ n : ℕ) : ℚ))
    rw [Int.ceil_natCast]
  | negSucc n =>
    show (((m + 2 ^ (n + 1) - 1) / 2 ^ (n + 1) : ℕ) : ℤ)
        = Int.ceil ((m : ℚ) / ((2 ^ (n + 1) : ℕ) : ℚ))
    have hd : 0 < (2 : ℕ) ^ (n + 1) := Nat.pos_pow_of_pos _ (by norm_num)
    have hdm := Nat.div_add_mod' (m + 2 ^ (n + 1) - 1) (2 ^ (n + 1))
    have hmod : (m + 2 ^ (n + 1) - 1) % 2 ^ (n + 1) < 2 ^ (n + 1) := Nat.mod_lt _ hd
    have hA : m ≤ ((m + 2 ^ (n + 1) - 1) / 2 ^ (n + 1)) * 2 ^ (n + 1) := by omega
    have hB : ((m + 2 ^ (n + 1) - 1) / 2 ^ (n + 1)) * 2 ^ (n + 1) < m + 2 ^ (n + 1) := by omega
    have hdq : (0 : ℚ) < ((2 ^ (n + 1) : ℕ) : ℚ) := by exact_mod_cast hd
    symm
    rw [Int.ceil_eq_iff]
    constructor
    · rw [Int.cast_natCast, lt_div_iff₀ hdq]
      have hBq : (((m + 2 ^ (n + 1) - 1) / 2 ^ (n + 1) : ℕ) : ℚ) * ((2 ^ (n + 1) : ℕ) : ℚ)
          < (m : ℚ) + ((2 ^ (n + 1) : ℕ) : ℚ) := by
        exact_mod_cast hB
      linarith
    · rw [Int.cast_natCast, div_le_iff₀ hdq]
      have hAq : (m : ℚ)
          ≤ (((m + 2 ^ (n + 1) - 1) / 2 ^ (n + 1) : ℕ) : ℚ) * ((2 ^ (n + 1) : ℕ) : ℚ) := by
        exact_mod_cast hA
      linarith

/-! ## Validation of the modelled extractors against the repository's
test suites (`rstTypes_test.go` and the older main-package role test) -/

example : ParseForLocalRefs "" = [] := by decide

example : ParseForLocalRefs ".. _:" = [] := by decide

example : ParseForLocalRefs ".. _foo:" = [RefTarget.mk "foo"] := by decide

example : ParseForLocalRefs ".. _foo:\n.. _bar:" = [RefTarget.mk "foo", RefTarget.mk "bar"] := by
  decide

example : ParseForLocalRefs ".. _foo:\n.. _bar:\n\n\n\n\n\n.. _baz:"
    = [RefTarget.mk "foo", RefTarget.mk "bar", RefTarget.mk "baz"] := by decide

example : ParseForLocalRefs ".. _version-4.1:" = [RefTarget.mk "version-4.1"] := by decide

example : ParseForLocalRefs ".. _mongodb-compatibility-table-about-\x7b+driver+\x7d:"
    = [RefTarget.mk "mongodb-compatibility-table-about-\x7b+driver+\x7d"] := by decide

example : ParseForLocalRefs "    - ..  _unionWith-coll:" = [RefTarget.mk "unionWith-coll"] := by
  decide

example : ParseForLocalRefs ".. _faq-storage limit:" = [RefTarget.mk "faq-storage limit"] := by
  decide

example : ParseForConstants "This is a `constant link that should fail <\x7b+api+\x7d/flibbertypoo>`__"
    = [RstConstant.mk "api" "/flibbertypoo"] := by decide

example : ParseForConstants "here is a :ref:`fantastic`" = [] := by decide

example : ParseForConstants
      "Here is one `constant link <\x7b+api+\x7d/One.html>`__ and a second `constant link <\x7b+api+\x7d/Two.html>`__"
    = [RstConstant.mk "api" "/One.html", RstConstant.mk "api" "/Two.html"] := by decide

example : (RstConstant.mk "api" "https://www.google.com").IsHTTPLink = true := by decide

example : (RstConstant.mk "api" "v1.8.0").IsHTTPLink = false := by decide

example : ParseForHTTPLinks "we can say http and www without any links being found" = [] := by
  decide

example : ParseForHTTPLinks "https://www.flibberptyquz.co" = ["https://www.flibberptyquz.co"] := by
  decide

example : ParseForHTTPLinks
      "markdown links are found\n\t\t [some markdown link](https://www.google.com)\\n\" +\n\t\t\"   [some other link](https://a.bad.url)\\n\" +"
    = ["https://www.google.com", "https://a.bad.url"] := by decide

example : ParseForHTTPLinks
      "http links in rst are found\n\t\t\"   this is a bad `url <https://www.flibbertypip.com>`__\\n\" +\n\t\t\"   this is a good `url <https://www.github.com>`__"
    = ["https://www.flibbertypip.com", "https://www.github.com"] := by decide

example : ParseForRoles "This is a `constant link that should fail <\x7b+api+\x7d/flibbertypoo>`__"
    = [] := by decide

example : ParseForRoles "here is a :ref:`fantastic`" = [RstRole.mk "ref" "ref" "fantastic"] := by
  decide

example : ParseForRoles
      "here is a :ref:`fantastic` here is another :ref:`2 <mediocre-fantastic>` here is a :ref:`\n<not_great-fantastic>`"
    = [RstRole.mk "ref" "ref" "fantastic", RstRole.mk "ref" "ref" "mediocre-fantastic",
       RstRole.mk "ref" "ref" "not_great-fantastic"] := by decide

example : ParseForRoles ":node-api:`foo </AggregationCursor.html>`"
    = [RstRole.mk "node-api" "role" "/AggregationCursor.html"] := by decide

example : ParseForRoles "- :v4.0:`https://docs.mongodb.com/v4.0 </tutorial/restore-sharded-cluster>`"
    = [RstRole.mk "v4.0" "role" "/tutorial/restore-sharded-cluster"] := by decide

example : ParseForRoles ":doc:`Internal Authentication</core/security-internal-authentication>`."
    = [RstRole.mk "doc" "role" "/core/security-internal-authentication"] := by decide

example : ParseForRoles ":authaction:`find`/:authaction:`update`"
    = [RstRole.mk "authaction" "role" "find", RstRole.mk "authaction" "role" "update"] := by decide

example : ParseForRoles ":py:meth:`foo <bar>`" = [RstRole.mk "py:meth" "role" "bar"] := by decide

example : ParseForSharedIncludes ".. code-block::" = [] := by decide

example : ParseForSharedIncludes ".. include:: /includes/foo.txt" = [] := by decide

example : ParseForSharedIncludes ".. sharedinclude:: dbx/about-compatibility.rst"
    = [SharedInclude.mk "dbx/about-compatibility.rst"] := by decide

example : ParseForDirectives ".. code-block::" = [] := by decide

example : ParseForDirectives ".. include:: /includes/foo.txt"
    = [RstDirective.mk "include" "/includes/foo.txt"] := by decide

example : ParseForDirectives ".. method:: sh.removeShardTag(shard, tag)"
    = [RstDirective.mk "method" "sh.removeShardTag(shard, tag)"] := by decide

/-! ## Claim theorems -/

/-- Claim C1 (the code violates it): when two scheduled tasks compute the
same final URL and both are planned before any task executes — which is
how every run proceeds, since the whole work stack is built before the
job channel is fed — both tasks perform the network probe.  In `cfgDup` a
templated role and an extracted HTTP link resolve to the same URL, and
the run probes that URL twice, contradicting the claim that exactly one
probe is performed per URL. -/
theorem checker_probes_duplicate_url :
    (checkerRun cfgDup).snd = ["https://example.com/x", "https://example.com/x"] := by
  decide

/-- Claim C2 (the code violates it): an extracted Constant `api` with
Target `/ClientSession.html`, whose Name is a key of the constants table
`api ↦ https://example.com/api`, should resolve to
`https://example.com/api/ClientSession.html` (an absolute HTTP URL, so a
reachability task should be scheduled for it).  The constants loop instead
computes `Constants[filename] + con.Name`, which here is `"" ++ "api"`,
not an HTTP link, so the run emits no diagnostic and schedules nothing. -/
theorem constant_resolution_uses_filename_key :
    ParseForConstants "This is a `constant link <\x7b+api+\x7d/ClientSession.html>`__"
        = [RstConstant.mk "api" "/ClientSession.html"]
    ∧ processConstants [("api", "https://example.com/api")]
        [(RstConstant.mk "api" "/ClientSession.html", "docs/page.txt")] = ([], [])
    ∧ (RstConstant.mk "api" "https://example.com/api/ClientSession.html").IsHTTPLink = true := by
  decide

/-- Claim C3 (the code violates it): with docs-checking enabled, a `doc`
role whose Target `/nonexistent-doc` names no document of the corpus
should produce one "not a valid file" diagnostic.  The code instead tests
whether the containing file's path occurs in the corpus file list
(`contains(files, filename)`), never consulting the role's Target, so the
run in `cfgDoc` produces no diagnostic at all. -/
theorem doc_role_target_not_validated :
    (checkerRun cfgDoc).fst = [] ∧ contains cfgDoc.files "/nonexistent-doc" = false := by
  decide

/-- Claim C4: decoding a response with a valid four-line header and a
correctly compressed body of the four test records yields exactly the
four expected Ref entries, each with Type `intersphinx` and Target equal
to the base URL prefix followed by the record's uri field; decoding the
same records left uncompressed, or an empty body, or a truncated or
malformed header, yields zero entries (and no error: decoding is a total
function).  Compression is abstract: `d` inflates `body` to the records,
and fails on the raw records and on the empty body, as zlib does. -/
theorem inventory_decode_spec (d : String → Option String) (body : String)
    (hgood : d body = some invTestRecords)
    (hraw : d invTestRecords = none)
    (hempty : d "" = none) :
    Intersphinx d (invTestHeader ++ body) invTestBase = invExpected
    ∧ Intersphinx d (invTestHeader ++ invTestRecords) invTestBase = []
    ∧ Intersphinx d invTestHeader invTestBase = []
    ∧ Intersphinx d invTruncatedHeader invTestBase = []
    ∧ Intersphinx d invMalformedHeader invTestBase = [] := by
  refine ⟨?_, ?_, ?_, ?_, ?_⟩
  · rw [intersphinx_body d (invTestHeader ++ body) invTestBase body.data
      (by rw [String.data_append]; exact invAfterHeader_append body.data)]
    rw [strMk_data, hgood]
    decide
  · rw [intersphinx_body d (invTestHeader ++ invTestRecords) invTestBase invTestRecords.data
      (by decide)]
    rw [strMk_data, hraw]
  · rw [intersphinx_body d invTestHeader invTestBase [] (by decide)]
    have h0 : String.mk ([] : List Char) = "" := rfl
    rw [h0, hempty]
  · exact intersphinx_skip d invTruncatedHeader invTestBase (by decide)
  · exact intersphinx_skip d invMalformedHeader invTestBase (by decide)

theorem inventory_decode_spec_witness :
    Intersphinx toyInflate (invTestHeader ++ ("Z" ++ invTestRecords)) invTestBase = invExpected
    ∧ Intersphinx toyInflate (invTestHeader ++ invTestRecords) invTestBase = []
    ∧ Intersphinx toyInflate invTestHeader invTestBase = []
    ∧ Intersphinx toyInflate invTruncatedHeader invTestBase = []
    ∧ Intersphinx toyInflate invMalformedHeader invTestBase = [] :=
  inventory_decode_spec toyInflate ("Z" ++ invTestRecords) (by decide) (by decide) (by decide)

/-- Claim C5 as stated is false on the code: the program computes the
interval with float64 arithmetic, and at throttle 1 and workers 49 the
double rounding of `1/49` makes `math.Ceil(1e9 / (1.0 / 49.0))` equal to
49000000001 ns, while the claimed exact value `ceil(1e9 / (1 / 49))` is
49000000000 ns. -/
theorem worker_interval_not_exact_ceil :
    minIntervalNs 1 49 = 49000000001
    ∧ Int.ceil ((1000000000 : ℚ) / ((1 : ℚ) / (49 : ℚ))) = 49000000000
    ∧ minIntervalNs 1 49 ≠ Int.ceil ((1000000000 : ℚ) / ((1 : ℚ) / (49 : ℚ))) := by
  have h1 : minIntervalNs 1 49 = 49000000001 := by decide
  have h2 : Int.ceil ((1000000000 : ℚ) / ((1 : ℚ) / (49 : ℚ))) = 49000000000 := by
    norm_num
  refine ⟨h1, h2, ?_⟩
  rw [h1, h2]
  decide

/-- Claim C5 (amended): the minimum inter-dispatch interval computed by
`worker` is exactly the ceiling of the float64-computed quotient
`1e9 / (float64(throttle) / float64(workers))` — the double roundings can
make this exceed the exact rational `ceil(1e9 / (throttle / workers))` by
one nanosecond, e.g. at throttle 1, workers 49 — and one iteration of the
worker loop sleeps exactly the remaining delta when less than that
interval has elapsed since its own previous dispatch (so the dispatch
happens exactly one interval after the previous one), dispatches
immediately otherwise, and always keeps consecutive dispatches at least
one interval apart. -/
theorem worker_throttle_pacing (throttle workers : ℕ)
    (hT : 0 < throttle) (hN : 0 < workers) :
    minIntervalNs throttle workers
        = Int.ceil (floatVal (floatDivF (floatOfNat 1000000000)
            (floatDivF (floatOfNat throttle) (floatOfNat workers))))
    ∧ ∀ (s : WorkerState) (jobTime : ℤ), s.lastExecutionTime ≤ s.clock →
        ((s.clock - s.lastExecutionTime < minIntervalNs throttle workers →
          (workerStep (minIntervalNs throttle workers) s jobTime).fst
            = s.lastExecutionTime + minIntervalNs throttle workers)
        ∧ (minIntervalNs throttle workers ≤ s.clock - s.lastExecutionTime →
          (workerStep (minIntervalNs throttle workers) s jobTime).fst = s.clock)
        ∧ minIntervalNs throttle workers
            ≤ (workerStep (minIntervalNs throttle workers) s jobTime).fst - s.lastExecutionTime
        ∧ (workerStep (minIntervalNs throttle workers) s jobTime).snd.lastExecutionTime
            = (workerStep (minIntervalNs throttle workers) s jobTime).fst) := by
  constructor
  · exact ceilF_eq_ceil _
  · intro s jobTime hle
    have h1 : (workerStep (minIntervalNs throttle workers) s jobTime).fst
        = if 0 < minIntervalNs throttle workers - (s.clock - s.lastExecutionTime)
          then s.clock + (minIntervalNs throttle workers - (s.clock - s.lastExecutionTime))
          else s.clock := rfl
    have h2 : (workerStep (minIntervalNs throttle workers) s jobTime).snd.lastExecutionTime
        = (workerStep (minIntervalNs throttle workers) s jobTime).fst := rfl
    refine ⟨?_, ?_, ?_, h2⟩ <;> rw [h1] <;> split <;> omega

theorem worker_throttle_pacing_witness :
    (workerStep (minIntervalNs 10 10) (WorkerState.mk 5 0) 7).fst
      = (0 : ℤ) + minIntervalNs 10 10 :=
  ((worker_throttle_pacing 10 10 (by decide) (by decide)).2
    (WorkerState.mk 5 0) 7 (by decide)).1
    (by rw [minIntervalNs_default]; decide)

/-- Claim C6: every role returned by role extraction has RoleType `ref`
exactly when its Name is `ref`, and every role with any other Name
(including `doc`) has RoleType `role`. -/
theorem role_type_ref_iff (s : String) (r : RstRole) (h : r ∈ ParseForRoles s) :
    (r.roleType = "ref" ↔ r.name = "ref") ∧ (r.name ≠ "ref" → r.roleType = "role") := by
  have hs := rolesLoop_shape s.data.length s.data r h
  by_cases hn : r.name = "ref"
  · rw [if_pos hn] at hs
    exact ⟨⟨fun _ => hn, fun _ => hs⟩, fun hne => absurd hn hne⟩
  · rw [if_neg hn] at hs
    refine ⟨⟨fun hrt => ?_, fun hrn => absurd hrn hn⟩, fun _ => hs⟩
    rw [hs] at hrt
    exact absurd hrt (by decide)

theorem role_type_ref_iff_witness :
    ((("role" : String) = "ref") ↔ (("doc" : String) = "ref"))
      ∧ ((("doc" : String) ≠ "ref") → ("role" : String) = "role") :=
  role_type_ref_iff ":doc:`intro`" (RstRole.mk "doc" "role" "intro") (by decide)

/-- Claim C7: every extracted Constant whose Name is absent from the
configured constants table produces exactly one "not defined in config"
diagnostic in the run's output, whatever the refs/docs flags of the
configuration are (the statement quantifies over every `RunConfig`, in
particular over both flags). -/
theorem undefined_constant_diagnostic (cfg : RunConfig) (con : RstConstant) (fn : String)
    (hnd : (cfg.allConstants.map Prod.fst).Nodup)
    (hmem : (con, fn) ∈ cfg.allConstants)
    (habs : (lookupStr cfg.constantsTable con.name).isNone = true) :
    countD (Diag.notDefinedInConfig con) (checkerRun cfg).fst = 1 := by
  have hsplit : (checkerRun cfg).fst
      = ((processConstants cfg.constantsTable cfg.allConstants).fst
          ++ ((planRoleOut cfg).map Prod.fst).flatten)
          ++ (runTasks cfg.reachable [] (planTasks cfg)).snd.snd := rfl
  rw [hsplit, countD_append, countD_append]
  rw [processConstants_count_one cfg.constantsTable cfg.allConstants con fn hnd hmem habs]
  have hz1 : countD (Diag.notDefinedInConfig con) ((planRoleOut cfg).map Prod.fst).flatten = 0 := by
    apply countD_eq_zero
    intro x hx
    rcases List.mem_flatten.mp hx with ⟨l, hl, hxl⟩
    rcases List.mem_map.mp hl with ⟨pr, hpr, hprl⟩
    rcases List.mem_map.mp hpr with ⟨p, _, hpe⟩
    rw [← hprl, ← hpe] at hxl
    exact processRole_fst_shape cfg.refs cfg.docs cfg.changes cfg.files cfg.sphinxKeys
      cfg.localRefOk cfg.specRoles cfg.rawRoles cfg.rstObjects [] p.fst p.snd con x hxl
  have hz2 : countD (Diag.notDefinedInConfig con)
      (runTasks cfg.reachable [] (planTasks cfg)).snd.snd = 0 :=
    countD_eq_zero _ _ (fun x hx => runTasks_diag_shape cfg.reachable (planTasks cfg) [] con x hx)
  rw [hz1, hz2]

theorem undefined_constant_diagnostic_witness :
    countD (Diag.notDefinedInConfig (RstConstant.mk "api" "/x")) (checkerRun cfgUndefCon).fst = 1 :=
  undefined_constant_diagnostic cfgUndefCon (RstConstant.mk "api" "/x") "f.txt"
    (by decide) (by decide) (by decide)

/-- Claim C8: the extraction operations are total Lean functions (they
never raise), and on inputs lacking the construct's syntax — the empty
string and the empty-label anchor lines `.. _:` and `.. _: foo` — every
one of the six extractors returns the empty sequence. -/
theorem extractors_empty_on_nonmatching :
    (ParseForLocalRefs "" = [] ∧ ParseForDirectives "" = []
      ∧ ParseForSharedIncludes "" = [] ∧ ParseForRoles "" = []
      ∧ ParseForConstants "" = [] ∧ ParseForHTTPLinks "" = [])
    ∧ (ParseForLocalRefs ".. _:" = [] ∧ ParseForDirectives ".. _:" = []
      ∧ ParseForSharedIncludes ".. _:" = [] ∧ ParseForRoles ".. _:" = []
      ∧ ParseForConstants ".. _:" = [] ∧ ParseForHTTPLinks ".. _:" = [])
    ∧ (ParseForLocalRefs ".. _: foo" = [] ∧ ParseForDirectives ".. _: foo" = []
      ∧ ParseForSharedIncludes ".. _: foo" = [] ∧ ParseForRoles ".. _: foo" = []
      ∧ ParseForConstants ".. _: foo" = [] ∧ ParseForHTTPLinks ".. _: foo" = []) := by
  decide

/-- Claim C9: a discovered role or HTTP link is in scope exactly when
some entry of the changeset contains the construct's document path (with
one leading `/` trimmed) as a substring — containment, not path equality —
and a construct whose scope test fails is skipped entirely by both the
role loop and the link loop. -/
theorem changeset_scope_substring (changes : List String) (filename : String) :
    (contains changes (trimLeadingSlash filename) = true ↔
      ∃ a ∈ changes, ∃ pre post, a.data = pre ++ (trimLeadingSlash filename).data ++ post)
    ∧ (∀ refs docs files sphinxKeys localRefOk specRoles rawRoles rstObjects checked role,
        contains changes (trimLeadingSlash filename) = false →
        processRole refs docs changes files sphinxKeys localRefOk specRoles rawRoles
          rstObjects checked role filename = ([], []))
    ∧ (∀ checked link, contains changes (trimLeadingSlash filename) = false →
        processLink changes checked link filename = []) := by
  refine ⟨?_, ?_, ?_⟩
  · simp only [contains, List.any_eq_true]
    constructor
    · rintro ⟨a, ha, h⟩
      exact ⟨a, ha, (hasSub_iff _ _).mp h⟩
    · rintro ⟨a, ha, h⟩
      exact ⟨a, ha, (hasSub_iff _ _).mpr h⟩
  · intro refs docs files sphinxKeys localRefOk specRoles rawRoles rstObjects checked role h
    simp [processRole, h]
  · intro checked link h
    simp [processLink, h]

theorem changeset_scope_substring_witness :
    contains ["docs/a.txt"] (trimLeadingSlash "/a.tx") = true :=
  (changeset_scope_substring ["docs/a.txt"] "/a.tx").1.mpr
    ⟨"docs/a.txt", by decide, "docs/".data, "t".data, by decide⟩

/-- Claim C10: with refs-checking disabled, a discovered role named
`ref`, `py:meth` or `py:class` produces no diagnostic and no task; with
docs-checking disabled the same holds for `doc`; and `guilabel` is always
skipped — none of them falls through to the catch-all role-catalog rule. -/
theorem disabled_flags_skip_roles (refs docs : Bool) (changes files sphinxKeys : List String)
    (localRefOk : RstRole → Bool) (specRoles : List (String × String))
    (rawRoles rstObjects : List String) (checked : List String)
    (role : RstRole) (filename : String) :
    ((role.name = "ref" ∨ role.name = "py:meth" ∨ role.name = "py:class") →
      processRole false docs changes files sphinxKeys localRefOk specRoles rawRoles
        rstObjects checked role filename = ([], []))
    ∧ (role.name = "doc" →
      processRole refs false changes files sphinxKeys localRefOk specRoles rawRoles
        rstObjects checked role filename = ([], []))
    ∧ (role.name = "guilabel" →
      processRole refs docs changes files sphinxKeys localRefOk specRoles rawRoles
        rstObjects checked role filename = ([], [])) := by
  refine ⟨fun hname => ?_, fun hname => ?_, fun hname => ?_⟩
  · rcases hname with h | h | h <;> simp [processRole, h]
  · simp [processRole, hname]
  · simp [processRole, hname]

theorem disabled_flags_skip_roles_witness :
    processRole false true ["a.txt"] [] [] (fun _ => false) [] [] [] []
      (RstRole.mk "ref" "ref" "x") "a.txt" = ([], []) :=
  (disabled_flags_skip_roles false true ["a.txt"] [] [] (fun _ => false) [] [] [] []
    (RstRole.mk "ref" "ref" "x") "a.txt").1 (Or.inl rfl)

end Checker
